import Mathlib

/-!
Verification of the `jk` terminal editor core against its specification.

The Go sources hold several historical snapshots of the same program
(separated by document markers).  The definitions below are shallow
embeddings of the concrete Go functions; each definition's doc comment
cites the file and line range it translates.  Conventions:

* Go `[]rune` is `List Char`; Go `string` used as rune sequence is also
  `List Char` (all markers and keywords in the registry are ASCII, so
  Go's byte-length of those strings equals their rune count).
* Go `int` is `Int`.  List indices are converted with `Int.toNat` only
  after the corresponding Go bounds check has been modelled.
* A Go operation that can panic (index out of range) is modelled as an
  `Option`-valued function returning `none` exactly on the panic paths.
* Loops are modelled by structural recursion, with an explicit fuel
  argument when the loop does not structurally recurse on a list; every
  wrapper supplies fuel that provably dominates the Go iteration count.
-/

namespace JK

/-- Highlight categories, from the SyntaxHL enum (unnamed/part_002).
The Go enum starts at 1 and the zero value is unused after
initialization, so the constructors carry no numbers here. -/
inductive SyntaxHL where
  | hlNormal
  | hlComment
  | hlMlComment
  | hlKeyword1
  | hlKeyword2
  | hlString
  | hlNumber
  | hlMatch
  deriving DecidableEq

/-- Per-filetype highlight profile, from EditorSyntax (filetypes.go,
first snapshot; the variant with separate keywords2 and boolean flags,
which is the one mini.go reads). The filetype and filematch fields play
no role in the claims and are omitted. -/
structure EditorSyntax where
  keywords : List (List Char)
  keywords2 : List (List Char)
  scs : List Char
  mcs : List Char
  mce : List Char
  highlightStrings : Bool
  highlightNumbers : Bool
  deriving DecidableEq

/-- One document line, from the Row struct (mini.go 114-123).  The idx
field exists only in the first sdk.go snapshot's Row (maintained by its
DeleteRow/InsertRow); it defaults to 0 and is ignored by the mini.go
functions. -/
structure Row where
  chars : List Char
  render : List Char
  hl : List SyntaxHL
  hasUnclosedComment : Bool
  idx : Int := 0
  deriving DecidableEq

/-- The editor state, from the Editor struct (mini.go 33-68), restricted
to the fields the claims touch.  The Go field `syntax` is renamed `syn`
(`syntax` is reserved in Lean); `tabstop` is cfg.Tabstop (default 8);
`lastSearch` is from the part_001 snapshot's Editor. -/
structure Editor where
  cx : Int
  cy : Int
  rowOffset : Int
  colOffset : Int
  screenRows : Int
  screenCols : Int
  rows : List Row
  modified : Bool
  syn : Option EditorSyntax
  tabstop : Nat := 8
  lastSearch : List Char := []
  deriving DecidableEq

/-- Key codes, from mini.go 93-112: a decoded key is an int32.  In that
const block iota counts every line, so the arrow keys start at 1004. -/
abbrev Key := Int

def keyEnter : Key := 10
def keyCarriageReturn : Key := 13
def keyBackspace : Key := 127
def keyEscape : Key := 27
def keyArrowLeft : Key := 1004
def keyArrowRight : Key := 1005
def keyArrowUp : Key := 1006
def keyArrowDown : Key := 1007
def keyDelete : Key := 1008
def ctrlH : Key := 8
def ctrlQ : Key := 17

/-- Printability test used by the search prompts (mini.go 436-438:
not a control rune, IsPrint, not an arrow key).  Keys arrive one byte at
a time from readKey, and for the ASCII range Go's unicode tables give
exactly 32..126; the sessions below only branch on this predicate in
the catch-all case, where either outcome continues the session, so the
non-ASCII fringe of unicode.IsPrint is irrelevant to the theorems. -/
def isPrintableM (k : Key) : Bool := 32 ≤ k && k ≤ 126

/-- Row lookup by a Go int index; `none` on the out-of-range accesses
where Go panics. -/
def rowAt? (e : Editor) (i : Int) : Option Row :=
  if i < 0 then none else e.rows[i.toNat]?

/-- Length of the chars of the row under an index, with 0 for an
out-of-range index (used only to state hypotheses that force the index
in range). -/
def rowCharsLen (e : Editor) (i : Int) : Int :=
  ((rowAt? e i).map (fun r => (r.chars.length : Int))).getD 0

/-- Separator test from isSeparator (mini.go 584-586):
unicode.IsSpace(r) or r occurs in the separator string.  Modelled for
the ASCII space characters (the non-ASCII unicode space code points are
not exercised by any theorem). -/
def isSeparator (r : Char) : Bool :=
  r = ' ' || r = '\t' || r = '\n' || r = '\r' ||
    r = '\x0b' || r = '\x0c' ||
    (String.toList ",.()+-/*=~%<>[]{}:;").contains r

/-- Keyword scan from checkKeywordMatch (mini.go 729-752): first keyword
that is a prefix of text and is followed by end-of-text or a separator;
the empty list is the no-match sentinel, exactly like Go's "".  The
`getD` models Go's text[length], which those guards keep in range. -/
def checkKeywordMatch : List (List Char) → List Char → List Char
  | [], _ => []
  | kw :: kws, text =>
    if text.length < kw.length then checkKeywordMatch kws text
    else if ¬ (kw = text.take kw.length) then checkKeywordMatch kws text
    else if kw.length ≠ text.length ∧ ¬ isSeparator (text.getD kw.length ' ') then
      checkKeywordMatch kws text
    else kw

/-- Keyword dispatch from checkIfKeyword (mini.go 713-725): first
keyword set wins with hlKeyword1, then the second set with hlKeyword2;
`none` corresponds to Go's ("", 0). -/
def checkIfKeyword (s : EditorSyntax) (text : List Char) : Option (List Char × SyntaxHL) :=
  let kw := checkKeywordMatch s.keywords text
  if kw.length ≠ 0 then some (kw, SyntaxHL.hlKeyword1)
  else
    let kw2 := checkKeywordMatch s.keywords2 text
    if kw2.length ≠ 0 then some (kw2, SyntaxHL.hlKeyword2) else none

/-- Substring scan from findSubstring in sdk.go 250-263 (also sdk.go
777-791 and part_000 283-297): the inner loop reads text[i+j] before
any bounds check, so when a proper suffix of text matches a prefix of
the query the access is out of range and Go panics; that path is
`none`.  `some x` is the Go return value. -/
def sdkInner (text : List Char) (i : Nat) : List Char → Nat → Option Bool
  | [], _ => some true
  | q :: qs, j =>
    match text[i + j]? with
    | none => none
    | some c => if c ≠ q then some false else sdkInner text i qs (j + 1)

/-- Outer loop of the sdk.go findSubstring; the fuel is the number of
remaining iterations of `for i := range text`, so `text.length` at the
top call is exact. -/
def fsSdkAux (text query : List Char) : Nat → Nat → Option Int
  | _, 0 => some (-1)
  | i, rem + 1 =>
    match sdkInner text i query 0 with
    | none => none
    | some true => some (i : Int)
    | some false => fsSdkAux text query (i + 1) rem

/-- The findSubstring of sdk.go 250-263 as called (scan starts at 0). -/
def findSubstringSdk (text query : List Char) : Option Int :=
  fsSdkAux text query 0 text.length

/-- Character-by-character prefix comparison, the inner loop of the
guarded findSubstring (part_001 409-426), whose guard keeps every
text[i+j] in range. -/
def prefixMatch : List Char → List Char → Bool
  | _, [] => true
  | [], _ :: _ => false
  | t :: ts, q :: qs => t = q && prefixMatch ts qs

/-- Outer scan of the part_001 findSubstring: i runs over
text[:len(text)-len(query)+1]. -/
def fsScanP1 (text query : List Char) : Nat → Nat → Int
  | _, 0 => -1
  | i, rem + 1 =>
    if prefixMatch (text.drop i) query then (i : Int)
    else fsScanP1 text query (i + 1) rem

/-- Substring search from findSubstring in unnamed/part_001 409-426:
the added length guard makes it total.  (For an empty query the Go
slice text[:len(text)+1] is only legal when the slice has spare
capacity; no theorem relies on the empty-query case.) -/
def findSubstringP1 (text query : List Char) : Int :=
  if text.length < query.length then -1
  else fsScanP1 text query 0 (text.length - query.length + 1)

/-- Rune deletion from Row.deleteChar (sdk.go 89-94): out-of-range is a
no-op. -/
def rowDeleteChar (chars : List Char) (i : Int) : List Char :=
  if i < 0 ∨ (chars.length : Int) ≤ i then chars
  else chars.eraseIdx i.toNat

/-- Cursor clamp from WrapCursorY (sdk.go 380-394): total, never
indexes the row list. -/
def wrapCursorY (e : Editor) : Editor :=
  if e.cy < 0 then { e with cy := 0 }
  else if e.rows.length = 0 then { e with cy := 0 }
  else if (e.rows.length : Int) ≤ e.cy then { e with cy := (e.rows.length : Int) - 1 }
  else e

/-- Cursor clamp from WrapCursorX (sdk.go 359-378): after the cx < 0
and empty-document early returns it reads e.rows[e.cy], which panics
when cy is out of range; that path is `none`. -/
def wrapCursorX? (e : Editor) : Option Editor :=
  if e.cx < 0 then some { e with cx := 0 }
  else if e.rows.length = 0 then some { e with cx := 0 }
  else
    (rowAt? e e.cy).map (fun row =>
      if row.chars.length = 0 then { e with cx := 0 }
      else if (row.chars.length : Int) ≤ e.cx then { e with cx := (row.chars.length : Int) }
      else e)

/-- Display width of one rune (go-runewidth RuneWidth), modelled for
the ASCII range: 0 for control characters, 1 otherwise.  It only enters
the render computation as the column increment, and no theorem exercises
wide East-Asian runes. -/
def runeWidth (c : Char) : Nat :=
  if c.toNat < 32 ∨ c.toNat = 127 then 0 else 1

/-- Number of extra pad spaces a tab needs after its first space so the
column counter reaches a multiple of tabstop; this closes the inner
`for cols%Tabstop != 0` loop of updateRow (mini.go 569-577) for any
positive tabstop. -/
def tabPad (tabstop cols : Nat) : Nat :=
  if (cols + 1) % tabstop = 0 then 0 else tabstop - (cols + 1) % tabstop

/-- Render loop of updateRow (mini.go 558-580): tabs expand to spaces
up to the next tab stop, other runes are copied and advance the column
by their width. -/
def renderLoop (tabstop : Nat) : List Char → Nat → List Char
  | [], _ => []
  | r :: rs, cols =>
    if r = '\t' then
      let k := tabPad tabstop cols
      List.replicate (k + 1) ' ' ++ renderLoop tabstop rs (cols + k + 1)
    else r :: renderLoop tabstop rs (cols + runeWidth r)

/-- Render string of a row's chars (mini.go updateRow, before the
updateHighlight call). -/
def renderChars (tabstop : Nat) (chars : List Char) : List Char :=
  renderLoop tabstop chars 0

/-- Write `v` into n consecutive highlight slots starting at i; this is
the shape of every marker-consumption loop in updateHighlight.  All
call sites keep the range inside the list, where List.set matches the
Go write. -/
def setRange : List SyntaxHL → Nat → Nat → SyntaxHL → List SyntaxHL
  | hl, _, 0, _ => hl
  | hl, i, n + 1, v => setRange (hl.set i v) (i + 1) n v

/-- Result of the single-row highlight pass: the highlight array and
the final in-multiline-comment state. -/
structure PassOut where
  hl : List SyntaxHL
  inComment : Bool
  deriving DecidableEq

/-- The character loop of updateHighlight (mini.go 610-704), carried
state exactly as in the source: idx, the highlight array, prevSep, the
open string quote (none outside a string) and the in-comment flag.  The
fuel counts remaining loop entries; idx grows by at least one per
iteration, so fuel runes.length + 1 - idx always suffices and every
wrapper passes runes.length + 1.  prevHl reads hl[idx-1] (in range in
every reachable state; getD supplies the unread default).  The
single-line-comment branch marks the rest of the row and breaks; the
multiline branches consume whole markers; strings handle the
backslash skip-ahead; numbers and keywords follow; after a keyword of
length L the source advances idx by L and then once more, leaving the
character right after the keyword unexamined, which is reproduced
here. -/
def hlLoop (s : EditorSyntax) (runes : List Char) :
    Nat → Nat → List SyntaxHL → Bool → Option Char → Bool → PassOut
  | 0, _, hl, _, _, inComment => ⟨hl, inComment⟩
  | fuel + 1, idx, hl, prevSep, strQuote, inComment =>
    match runes[idx]? with
    | none => ⟨hl, inComment⟩
    | some r =>
      let prevHl := if 0 < idx then hl.getD (idx - 1) SyntaxHL.hlNormal else SyntaxHL.hlNormal
      if s.scs ≠ [] ∧ strQuote = none ∧ ¬ inComment ∧ s.scs.isPrefixOf (runes.drop idx) then
        ⟨setRange hl idx (runes.length - idx) SyntaxHL.hlComment, inComment⟩
      else if s.mcs ≠ [] ∧ s.mce ≠ [] ∧ strQuote = none ∧ inComment then
        let hl1 := hl.set idx SyntaxHL.hlMlComment
        if s.mce.isPrefixOf (runes.drop idx) then
          hlLoop s runes fuel (idx + s.mce.length)
            (setRange hl1 idx s.mce.length SyntaxHL.hlMlComment) true none false
        else hlLoop s runes fuel (idx + 1) hl1 prevSep strQuote true
      else if s.mcs ≠ [] ∧ s.mce ≠ [] ∧ strQuote = none ∧ s.mcs.isPrefixOf (runes.drop idx) then
        hlLoop s runes fuel (idx + s.mcs.length)
          (setRange hl idx s.mcs.length SyntaxHL.hlMlComment) prevSep strQuote true
      else if s.highlightStrings ∧ strQuote.isSome then
        let q := strQuote.getD ' '
        let hl1 := hl.set idx SyntaxHL.hlString
        if r = '\\' ∧ idx + 1 < runes.length then
          hlLoop s runes fuel (idx + 2) (hl1.set (idx + 1) SyntaxHL.hlString)
            prevSep strQuote inComment
        else
          hlLoop s runes fuel (idx + 1) hl1 true
            (if r = q then none else strQuote) inComment
      else if s.highlightStrings ∧ (r = '"' ∨ r = '\'') then
        hlLoop s runes fuel (idx + 1) (hl.set idx SyntaxHL.hlString) prevSep (some r) inComment
      else if s.highlightNumbers ∧
          ((r.isDigit ∧ (prevSep ∨ prevHl = SyntaxHL.hlNumber)) ∨
            (r = '.' ∧ prevHl = SyntaxHL.hlNumber)) then
        hlLoop s runes fuel (idx + 1) (hl.set idx SyntaxHL.hlNumber) false strQuote inComment
      else
        match (if prevSep then checkIfKeyword s (runes.drop idx) else none) with
        | some (kw, hlv) =>
          hlLoop s runes fuel (idx + kw.length + 1) (setRange hl idx kw.length hlv)
            (isSeparator r) strQuote inComment
        | none =>
          hlLoop s runes fuel (idx + 1) hl (isSeparator r) strQuote inComment

/-- Highlight recomputation from updateHighlight (mini.go 588-711).
The fuel bounds the cross-row propagation (the recursive call at
mini.go 706-710, which moves to y+1 only when the row's
hasUnclosedComment flag changed and y+1 is in range); the wrapper
passes rows.length - y, which the termination theorem shows exact.
`none` covers the panic of e.rows[y] on an out-of-range y and fuel
exhaustion (which the fuel theorem shows unreachable at sufficient
fuel).  With no syntax profile the function stops after resetting hl
to hlNormal, exactly like the early return at mini.go 597-599. -/
def updateHighlightFuel : Nat → Editor → Nat → Option Editor
  | 0, _, _ => none
  | fuel + 1, e, y =>
    match e.rows[y]? with
    | none => none
    | some row =>
      let hl0 := List.replicate row.render.length SyntaxHL.hlNormal
      match e.syn with
      | none => some { e with rows := e.rows.set y { row with hl := hl0 } }
      | some s =>
        let inC0 := decide (0 < y) &&
          (((e.rows[y - 1]?).map Row.hasUnclosedComment).getD false)
        let res := hlLoop s row.render (row.render.length + 1) 0 hl0 true none inC0
        let changed := row.hasUnclosedComment ≠ res.inComment
        let row1 := { row with hl := res.hl, hasUnclosedComment := res.inComment }
        let e1 := { e with rows := e.rows.set y row1 }
        if changed ∧ y + 1 < e1.rows.length then updateHighlightFuel fuel e1 (y + 1)
        else some e1

/-- updateHighlight at its natural fuel. -/
def updateHighlight (e : Editor) (y : Nat) : Option Editor :=
  updateHighlightFuel (e.rows.length - y) e y

/-- Row recomputation from updateRow (mini.go 558-582): rebuild the
render string of row y, then rerun the highlighter from y.  `none` is
the panic of e.rows[y] on an out-of-range y. -/
def updateRow? (e : Editor) (y : Nat) : Option Editor :=
  match e.rows[y]? with
  | none => none
  | some row =>
    let row1 := { row with render := renderChars e.tabstop row.chars }
    updateHighlight { e with rows := e.rows.set y row1 } y

/-- Modelled from the spec: the first sdk.go snapshot calls a
pointer-based updateRow(row *Row) whose body is not under src/ (only
mini.go's index-based updateRow is).  Per spec section 4.1/4.3 and the
design note on row indices stored in row objects, it recomputes the
row's render and highlights, seeding the multiline-comment state from
the predecessor row found through the stored idx; being pointer-based
it cannot propagate to later rows.  Every theorem that runs it does so
with syn = none, where it coincides with mini.go's per-row reset. -/
def updateRowPtr (e : Editor) (row : Row) : Row :=
  let render := renderChars e.tabstop row.chars
  let hl0 := List.replicate render.length SyntaxHL.hlNormal
  match e.syn with
  | none => { row with render := render, hl := hl0 }
  | some s =>
    let inC0 := decide (0 < row.idx) &&
      (((e.rows[(row.idx - 1).toNat]?).map Row.hasUnclosedComment).getD false)
    let res := hlLoop s render (render.length + 1) 0 hl0 true none inC0
    { row with render := render, hl := res.hl, hasUnclosedComment := res.inComment }

/-- Row deletion from DeleteRow (sdk.go 130-143): out-of-range is a
no-op before anything is touched; otherwise the row is removed, the
stored idx of every following row is decremented, modified is set and
the cursor is rewrapped.  The final WrapCursorX cannot panic because
WrapCursorY has just put cy in range (or the document is empty). -/
def deleteRowFS (e : Editor) (i : Int) : Option Editor :=
  if i < 0 ∨ (e.rows.length : Int) ≤ i then some e
  else
    let rows1 := e.rows.eraseIdx i.toNat
    let rows2 := rows1.take i.toNat ++
      (rows1.drop i.toNat).map (fun r => { r with idx := r.idx - 1 })
    wrapCursorX? (wrapCursorY { e with rows := rows2, modified := true })

/-- Row insertion from InsertRow (sdk.go 279-297): the guard rejects
at < 0 and at > len(rows); a fresh row inherits the predecessor's
hasUnclosedComment, gets idx = at, is recomputed by the pointer
updateRow before insertion, and the stored idx of every shifted row is
incremented. -/
def insertRowFS (e : Editor) (i : Int) (cs : List Char) : Editor :=
  if i < 0 ∨ (e.rows.length : Int) < i then e
  else
    let row : Row :=
      { chars := cs, render := [], hl := [],
        hasUnclosedComment :=
          decide (0 < i) && (((e.rows[(i - 1).toNat]?).map Row.hasUnclosedComment).getD false),
        idx := i }
    let row1 := updateRowPtr e row
    { e with rows := e.rows.take i.toNat ++ row1 ::
        (e.rows.drop i.toNat).map (fun r => { r with idx := r.idx + 1 }) }

/-- Row replacement from SetRow (sdk.go 265-277): the guard only
rejects at < 0 and at > len(rows), so at = len(rows) slips through and
the write to e.rows[at] panics (`none`); in range, chars are replaced
and the row recomputed (the RepositionCursor call only writes a
terminal escape code and touches no editor state).  The second
snapshot's SetRow (sdk.go 793-805) has the same guard and the same
panic. -/
def setRowFS (e : Editor) (i : Int) (cs : List Char) : Option Editor :=
  if i < 0 ∨ (e.rows.length : Int) < i then some e
  else
    match e.rows[i.toNat]? with
    | none => none
    | some row =>
      let row1 := { row with chars := cs }
      let e1 := { e with rows := e.rows.set i.toNat row1 }
      some { e1 with rows := e1.rows.set i.toNat (updateRowPtr e1 row1) }

/-- Backspace from DeleteChar (sdk.go 107-128): nothing happens at the
end-of-document line or at the origin; with cx > 0 one rune is removed
and the row recomputed; at column 0 the row is appended to its
predecessor, the predecessor recomputed, the row deleted through
DeleteRow (which rewraps the cursor) and only then cy decremented. -/
def deleteCharFS (e : Editor) : Option Editor :=
  if e.cy = (e.rows.length : Int) then some e
  else if e.cx = 0 ∧ e.cy = 0 then some e
  else
    match rowAt? e e.cy with
    | none => none
    | some row =>
      if 0 < e.cx then
        let row1 := { row with chars := rowDeleteChar row.chars (e.cx - 1) }
        let eA := { e with rows := e.rows.set e.cy.toNat row1 }
        let eB := { eA with rows := eA.rows.set e.cy.toNat (updateRowPtr eA row1) }
        some { eB with cx := e.cx - 1, modified := true }
      else
        match rowAt? e (e.cy - 1) with
        | none => none
        | some prevRow =>
          let prevRow1 := { prevRow with chars := prevRow.chars ++ row.chars }
          let e0 := { e with rows := e.rows.set (e.cy - 1).toNat prevRow1 }
          let e1 := { e0 with cx := (prevRow.chars.length : Int) }
          let e2 := { e1 with rows := e1.rows.set (e.cy - 1).toNat (updateRowPtr e1 prevRow1) }
          match deleteRowFS e2 e.cy with
          | none => none
          | some e3 => some { e3 with cy := e3.cy - 1 }

/-- Scan of `for i, row := range e.rows[e.cy:]` shared by the Find of
sdk.go 174-248 and of part_000 196-265: the first row whose chars
contain the query, by the unguarded findSubstring; `none` propagates
its panic, `some none` is no match, and a hit returns the relative row
offset, the match column and the matched row. -/
def ffScan : List Row → List Char → Nat → Option (Option (Nat × Int × Row))
  | [], _, _ => some none
  | r :: rs, q, i =>
    match findSubstringSdk r.chars q with
    | none => none
    | some x => if x = -1 then ffScan rs q (i + 1) else some (some (i, x, r))

/-- Search step after the key switch in the first-snapshot Find
(sdk.go 203-228): on a hit, cy is assigned the RELATIVE offset i (the
source writes e.cy = i, not e.cy += i) and rowOffset is pushed to
len(rows) so the next scroll lands the match at the top.  The slice
e.rows[e.cy:] panics when cy is outside [0, len]. -/
def ffSearch (e : Editor) (q : List Char) : Option Editor :=
  if e.cy < 0 ∨ (e.rows.length : Int) < e.cy then none
  else
    match ffScan (e.rows.drop e.cy.toNat) q 0 with
    | none => none
    | some none => some e
    | some (some (i, x, _)) =>
      some { e with cy := (i : Int), cx := x, rowOffset := (e.rows.length : Int) }

/-- One keystroke of the first-snapshot Find prompt (sdk.go 185-232).
The session query is threaded through; the two Bools are the found
flag and whether the prompt finished.  Escape and enter return before
the search; every other key falls through to it. -/
def ffStep (e : Editor) (q : List Char) (found : Bool) (k : Key) :
    Option (Editor × List Char × Bool × Bool) :=
  if k = keyDelete ∨ k = keyBackspace ∨ k = ctrlH then
    let q1 := if q ≠ [] then q.dropLast else q
    (ffSearch e q1).map (fun e1 => (e1, q1, found, false))
  else if k = keyEscape then some (e, q, found, true)
  else if k = keyEnter then some (e, q, true, true)
  else
    let q1 := if isPrintableM k then q ++ [Char.ofNat k.toNat] else q
    (ffSearch e q1).map (fun e1 => (e1, q1, found, false))

/-- The Prompt loop of sdk.go 149-170 driving the first-snapshot Find:
keys are consumed until the callback reports finished.  Exhausting the
key list models readKey failing, after which Find still runs its
restore epilogue, exactly as when Prompt returns an error. -/
def ffRun (e : Editor) (q : List Char) (found : Bool) :
    List Key → Option (Editor × Bool)
  | [] => some (e, found)
  | k :: ks =>
    match ffStep e q found k with
    | none => none
    | some (e1, _, f1, true) => some (e1, f1)
    | some (e1, q1, f1, false) => ffRun e1 q1 f1 ks

/-- Interactive search from the first-snapshot Find (sdk.go 174-248):
save the cursor and offsets, run the prompt, recompute the row under
the final cursor (e.updateRow(e.rows[e.cy]) — a panic when cy is out
of range) and restore the saved state unless a match was committed. -/
def findFS (e : Editor) (keys : List Key) : Option Editor :=
  match ffRun e [] false keys with
  | none => none
  | some (e1, found) =>
    match rowAt? e1 e1.cy with
    | none => none
    | some row =>
      let e2 := { e1 with rows := e1.rows.set e1.cy.toNat (updateRowPtr e1 row) }
      if found then some e2
      else some { e2 with cx := e.cx, cy := e.cy, colOffset := e.colOffset, rowOffset := e.rowOffset }

/-- Overlay loop of the part_000 Find (part_000 241-243): write hlMatch
into hl[index+i] for each query position; each write panics when its
index is out of range. -/
def overlayHl : List SyntaxHL → Nat → Nat → Option (List SyntaxHL)
  | hl, _, 0 => some hl
  | hl, i, n + 1 =>
    if i < hl.length then overlayHl (hl.set i SyntaxHL.hlMatch) (i + 1) n else none

/-- Search step after the key switch in the part_000 Find (part_000
224-246): here cy is advanced by the relative offset (e.cy += i), the
row offset is centred through SetRowOffset (clamped at 0), the prior
highlight array is copied into a local that is never read again, and
hlMatch is written over the matched span in place. -/
def fp0Search (e : Editor) (q : List Char) : Option Editor :=
  if e.cy < 0 ∨ (e.rows.length : Int) < e.cy then none
  else
    match ffScan (e.rows.drop e.cy.toNat) q 0 with
    | none => none
    | some none => some e
    | some (some (i, x, row)) =>
      let cy1 := e.cy + (i : Int)
      let off := cy1 - e.screenRows.tdiv 2
      match overlayHl row.hl x.toNat q.length with
      | none => none
      | some hl1 =>
        let rows1 := e.rows.set cy1.toNat { row with hl := hl1 }
        some { e with cy := cy1, cx := x, rowOffset := if off < 0 then 0 else off, rows := rows1 }

/-- One keystroke of the part_000 Find prompt (part_000 207-249). -/
def fp0Step (e : Editor) (q : List Char) (found : Bool) (k : Key) :
    Option (Editor × List Char × Bool × Bool) :=
  if k = keyDelete ∨ k = keyBackspace then
    let q1 := if q ≠ [] then q.dropLast else q
    (fp0Search e q1).map (fun e1 => (e1, q1, found, false))
  else if k = keyEscape then some (e, q, found, true)
  else if k = keyEnter ∨ k = keyCarriageReturn then some (e, q, true, true)
  else
    let q1 := if isPrintableM k then q ++ [Char.ofNat k.toNat] else q
    (fp0Search e q1).map (fun e1 => (e1, q1, found, false))

/-- The synchronous Prompt loop of part_000 171-192 driving its Find. -/
def fp0Run (e : Editor) (q : List Char) (found : Bool) :
    List Key → Option (Editor × Bool)
  | [] => some (e, found)
  | k :: ks =>
    match fp0Step e q found k with
    | none => none
    | some (e1, _, f1, true) => some (e1, f1)
    | some (e1, q1, f1, false) => fp0Run e1 q1 f1 ks

/-- Interactive search from the part_000 Find (196-265): after the
prompt, only the row under the final cursor is recomputed
(e.updateRow(e.cy), the index-based updateRow) and the saved state is
restored unless a match was committed. -/
def findP0 (e : Editor) (keys : List Key) : Option Editor :=
  match fp0Run e [] false keys with
  | none => none
  | some (e1, found) =>
    if e1.cy < 0 then none
    else
      match updateRow? e1 e1.cy.toNat with
      | none => none
      | some e2 =>
        if found then some e2
        else some { e2 with cx := e.cx, cy := e.cy, colOffset := e.colOffset, rowOffset := e.rowOffset }

/-- Row scan of the part_001 Editor.Find (part_001 366-371): walk the
rows from index y downward through the document with the guarded
findSubstring; total, the fuel dominates the remaining rows. -/
def eFindScan (rows : List Row) (query : List Char) : Nat → Nat → Int × Int
  | _, 0 => (-1, -1)
  | y, f + 1 =>
    match rows[y]? with
    | none => (-1, -1)
    | some row =>
      let x := findSubstringP1 row.chars query
      if x ≠ -1 then (x, (y : Int)) else eFindScan rows query (y + 1) f

/-- Forward search from the part_001 Editor.Find (360-374): first the
tail of the cursor row from column x1, then whole following rows.
`none` is the panic of e.rows[y1] or of chars[x1:] on out-of-range
arguments. -/
def eFindP1 (e : Editor) (x1 y1 : Int) (query : List Char) : Option (Int × Int) :=
  match rowAt? e y1 with
  | none => none
  | some row =>
    if x1 < 0 ∨ (row.chars.length : Int) < x1 then none
    else
      let x := findSubstringP1 (row.chars.drop x1.toNat) query
      if x ≠ -1 then some (x1 + x, y1)
      else some (eFindScan e.rows query (y1.toNat + 1) e.rows.length)

/-- Saved state of a FindInteractive session (part_001 294-297). -/
structure FISaved where
  cx : Int
  cy : Int
  colOffset : Int
  rowOffset : Int
  deriving DecidableEq

/-- Restore the four saved fields (the escape and no-match branches of
part_001 FindInteractive). -/
def fiRestore (sv : FISaved) (e : Editor) : Editor :=
  { e with cx := sv.cx, cy := sv.cy, colOffset := sv.colOffset, rowOffset := sv.rowOffset }

/-- Search step after the key switch of part_001 FindInteractive
(337-354): on no match restore everything saved; on a match move the
cursor there and centre through SetRowOffset. -/
def fiSearch (sv : FISaved) (e : Editor) (q : List Char) :
    Option (Editor × List Char × Bool) :=
  match eFindP1 e e.cx e.cy q with
  | none => none
  | some (x, y) =>
    if x = -1 then some (fiRestore sv e, q, false)
    else
      let off := y - e.screenRows.tdiv 2
      some ({ e with cy := y, cx := x, rowOffset := if off < 0 then 0 else off }, q, false)

/-- One keystroke of FindInteractive (part_001 301-355): backspace
trims the query and rewinds the cursor to the saved position before
re-searching; escape and ctrl-q restore and finish; enter records
lastSearch and finishes; printable keys extend the query. -/
def fiStep (sv : FISaved) (e : Editor) (q : List Char) (k : Key) :
    Option (Editor × List Char × Bool) :=
  if k = keyDelete ∨ k = keyBackspace then
    if q ≠ [] then fiSearch sv { e with cx := sv.cx, cy := sv.cy } q.dropLast
    else fiSearch sv e q
  else if k = keyEscape ∨ k = ctrlQ then some (fiRestore sv e, q, true)
  else if k = keyEnter ∨ k = keyCarriageReturn then some ({ e with lastSearch := q }, q, true)
  else
    let q1 := if isPrintableM k then q ++ [Char.ofNat k.toNat] else q
    fiSearch sv e q1

/-- Key loop driving a FindInteractive session (the prompt handler
installed at part_001 262-287 fed one key at a time): stops when the
callback reports finished; an exhausted key list leaves the session
open and returns the state reached. -/
def fiRun (sv : FISaved) (e : Editor) (q : List Char) :
    List Key → Option Editor
  | [] => some e
  | k :: ks =>
    match fiStep sv e q k with
    | none => none
    | some (e1, _, true) => some e1
    | some (e1, q1, false) => fiRun sv e1 q1 ks

/-- Interactive search from FindInteractive (part_001 293-358): the
session starts with the current cursor and offsets saved and an empty
query. -/
def findInteractive (e : Editor) (keys : List Key) : Option Editor :=
  fiRun ⟨e.cx, e.cy, e.colOffset, e.rowOffset⟩ e [] keys

/-- Serialization from Save (mini.go 460-467): each row's chars
followed by a single newline. -/
def saveContent (rows : List (List Char)) : List Char :=
  (rows.map (fun r => r ++ [Char.ofNat 10])).flatten

/-- Trailing carriage-return strip performed by bufio.ScanLines on
every token. -/
def dropCR (l : List Char) : List Char :=
  if l.getLast? = some '\r' then l.dropLast else l

/-- Line splitting of the bufio.Scanner loop in OpenFile (mini.go
522-532) with the ScanLines split function: tokens are newline-
delimited, each with a trailing carriage return dropped, a final
unterminated chunk is its own token and a trailing newline yields no
empty final token.  (The TrimRightFunc call at mini.go 526 discards
its result and has no effect.)  Each recursion consumes at least the
newline, so fuel content.length suffices. -/
def scanAux : Nat → List Char → List (List Char)
  | _, [] => []
  | 0, _ :: _ => []
  | f + 1, c :: cs =>
    let line := (c :: cs).takeWhile (fun x => x ≠ '\n')
    match (c :: cs).dropWhile (fun x => x ≠ '\n') with
    | [] => [dropCR line]
    | _ :: rest => dropCR line :: scanAux f rest

/-- Row contents produced by OpenFile from a file's content. -/
def openFileRows (content : List Char) : List (List Char) :=
  scanAux content.length content

/-- The go profile of the HLDB registry (filetypes.go 47-70, first
snapshot). -/
def goSyntax : EditorSyntax :=
  { keywords := [String.toList "break", String.toList "default", String.toList "func",
      String.toList "interface", String.toList "select", String.toList "case",
      String.toList "defer", String.toList "go", String.toList "map",
      String.toList "struct", String.toList "chan", String.toList "else",
      String.toList "goto", String.toList "package", String.toList "switch",
      String.toList "const", String.toList "fallthrough", String.toList "if",
      String.toList "range", String.toList "type", String.toList "continue",
      String.toList "for", String.toList "import", String.toList "return",
      String.toList "var"],
    keywords2 := [String.toList "append", String.toList "bool", String.toList "byte",
      String.toList "cap", String.toList "close", String.toList "complex",
      String.toList "complex64", String.toList "complex128", String.toList "error",
      String.toList "uint16", String.toList "copy", String.toList "false",
      String.toList "float32", String.toList "float64", String.toList "imag",
      String.toList "int", String.toList "int8", String.toList "int16",
      String.toList "uint32", String.toList "int32", String.toList "int64",
      String.toList "iota", String.toList "len", String.toList "make",
      String.toList "new", String.toList "nil", String.toList "panic",
      String.toList "uint64", String.toList "print", String.toList "println",
      String.toList "real", String.toList "recover", String.toList "rune",
      String.toList "string", String.toList "true", String.toList "uint",
      String.toList "uint8", String.toList "uintptr"],
    scs := String.toList "//",
    mcs := String.toList "/*",
    mce := String.toList "*/",
    highlightStrings := true,
    highlightNumbers := true }

/-- An empty editor with the default geometry. -/
def baseEditor : Editor :=
  { cx := 0, cy := 0, rowOffset := 0, colOffset := 0, screenRows := 24, screenCols := 80,
    rows := [], modified := false, syn := none }

/-- A row as it sits in the store after updateRow ran with no syntax
profile: render equals the (tab-free, ASCII) chars and the highlights
are all hlNormal. -/
def mkShownRow (cs : List Char) (i : Int) : Row :=
  { chars := cs, render := cs, hl := List.replicate cs.length SyntaxHL.hlNormal,
    hasUnclosedComment := false, idx := i }

/-- A freshly loaded row before highlighting: render computed from the
chars, highlights still empty. -/
def mkRawRow (cs : List Char) (i : Int) : Row :=
  { chars := cs, render := renderChars 8 cs, hl := [], hasUnclosedComment := false, idx := i }

/-- Two-row document whose cursor sits at column 0 of the second row;
the state backspace merges from. -/
def c2Editor : Editor :=
  { baseEditor with rows := [mkShownRow [Char.ofNat 97] 0, mkShownRow [Char.ofNat 98] 1], cy := 1 }

/-- One-row document holding "ab" with the cursor at the origin. -/
def c3Editor : Editor :=
  { baseEditor with rows := [mkShownRow (String.toList "ab") 0] }

/-- Document ["xa", "b"] with the cursor at the origin. -/
def c6Editor : Editor :=
  { baseEditor with rows := [mkShownRow (String.toList "xa") 0, mkShownRow (String.toList "b") 1] }

/-- One-row go-highlighted document holding "form", a row whose token
starts with the keyword "for" but continues with a letter. -/
def c5Editor : Editor :=
  { baseEditor with rows := [mkShownRow (String.toList "form") 0], syn := some goSyntax }

/-- Two-row go-highlighted document: the first row is exactly the
multiline comment opener, the second row is a parameter. -/
def c1Editor (cs : List Char) : Editor :=
  { baseEditor with rows := [mkRawRow (String.toList "/*") 0, mkRawRow cs 1], syn := some goSyntax }

/-- Clearing the chars of row y while keeping the rest of the row's
state; together with updateRow this models removing the opening marker
from a row and recomputing it (claim C1's second phase). -/
def removeRowChars (e : Editor) (y : Nat) : Editor :=
  match e.rows[y]? with
  | none => e
  | some r => { e with rows := e.rows.set y { r with chars := [] } }

/-! Theorems.  Each claim of the specification is settled by exactly
one theorem below, with a closed witness whenever the theorem carries
hypotheses. -/

/-- Claim C10: backspace at the document origin is a no-op — with
cx = 0 and cy = 0, DeleteChar (sdk.go 107-128) returns before touching
the rows, the cursor or the modified flag. -/
theorem deleteChar_origin_noop (e : Editor) (hx : e.cx = 0) (hy : e.cy = 0) :
    deleteCharFS e = some e := by
  unfold deleteCharFS
  by_cases h : e.cy = (e.rows.length : Int)
  · simp [h]
  · simp [h, hx, hy]

/-- Witness for deleteChar_origin_noop at a concrete two-row state. -/
theorem deleteChar_origin_noop_witness :
    deleteCharFS { c2Editor with cy := 0 } = some { c2Editor with cy := 0 } :=
  deleteChar_origin_noop { c2Editor with cy := 0 } rfl rfl

/-- Claim C2, counterexample: backspace at column 0 of the last row of
a two-row document runs DeleteRow (which rewraps the cursor) and only
then decrements cy, leaving cy = -1 and violating 0 ≤ cy. -/
theorem deleteChar_breaks_cursor_bounds :
    (deleteCharFS c2Editor).map Editor.cy = some (-1) := by decide

/-- Helper: WrapCursorX, fed any state whose cy is already in bounds,
succeeds and clamps cx into [0, len(rows[cy].chars)]. -/
theorem wrapCursorX_ok (e : Editor) (hy0 : 0 ≤ e.cy)
    (hyE : e.rows.length = 0 → e.cy = 0)
    (hyI : e.rows.length ≠ 0 → e.cy < (e.rows.length : Int)) :
    ∃ e2, wrapCursorX? e = some e2 ∧
      0 ≤ e2.cy ∧ e2.cy ≤ (e2.rows.length : Int) ∧
      (e2.cy < (e2.rows.length : Int) → 0 ≤ e2.cx ∧ e2.cx ≤ rowCharsLen e2 e2.cy) := by
  have hsame : ∀ v : Int, rowCharsLen { e with cx := v } e.cy = rowCharsLen e e.cy :=
    fun _ => rfl
  by_cases hempty : e.rows.length = 0
  · have hcy := hyE hempty
    unfold wrapCursorX?
    by_cases hx : e.cx < 0
    · rw [if_pos hx]
      refine ⟨_, rfl, ?_, ?_, ?_⟩
      · show (0 : Int) ≤ e.cy; omega
      · show e.cy ≤ (e.rows.length : Int); omega
      · show e.cy < (e.rows.length : Int) → _
        intro h; exact absurd h (by omega)
    · rw [if_neg hx, if_pos hempty]
      refine ⟨_, rfl, ?_, ?_, ?_⟩
      · show (0 : Int) ≤ e.cy; omega
      · show e.cy ≤ (e.rows.length : Int); omega
      · show e.cy < (e.rows.length : Int) → _
        intro h; exact absurd h (by omega)
  · have hcy := hyI hempty
    have hlt : e.cy.toNat < e.rows.length := by omega
    have hrow : rowAt? e e.cy = some e.rows[e.cy.toNat] := by
      unfold rowAt?
      rw [if_neg (by omega)]
      simp [List.getElem?_eq_getElem hlt]
    have hlen : rowCharsLen e e.cy = (e.rows[e.cy.toNat].chars.length : Int) := by
      unfold rowCharsLen; rw [hrow]; rfl
    unfold wrapCursorX?
    by_cases hx : e.cx < 0
    · rw [if_pos hx]
      refine ⟨_, rfl, hy0, ?_, fun _ => ⟨le_refl 0, ?_⟩⟩
      · show e.cy ≤ (e.rows.length : Int); omega
      · show (0 : Int) ≤ rowCharsLen { e with cx := 0 } e.cy
        rw [hsame, hlen]; omega
    · rw [if_neg hx, if_neg hempty, hrow, Option.map_some']
      by_cases hc0 : e.rows[e.cy.toNat].chars.length = 0
      · rw [if_pos hc0]
        refine ⟨_, rfl, hy0, ?_, fun _ => ⟨le_refl 0, ?_⟩⟩
        · show e.cy ≤ (e.rows.length : Int); omega
        · show (0 : Int) ≤ rowCharsLen { e with cx := 0 } e.cy
          rw [hsame, hlen]; omega
      · by_cases hcl : (e.rows[e.cy.toNat].chars.length : Int) ≤ e.cx
        · rw [if_neg hc0, if_pos hcl]
          refine ⟨_, rfl, hy0, ?_, fun _ => ⟨?_, ?_⟩⟩
          · show e.cy ≤ (e.rows.length : Int); omega
          · show (0 : Int) ≤ (e.rows[e.cy.toNat].chars.length : Int); omega
          · show ((e.rows[e.cy.toNat].chars.length : Int)) ≤
              rowCharsLen { e with cx := (e.rows[e.cy.toNat].chars.length : Int) } e.cy
            rw [hsame, hlen]
        · rw [if_neg hc0, if_neg hcl]
          refine ⟨_, rfl, hy0, ?_, fun _ => ⟨?_, ?_⟩⟩
          · show e.cy ≤ (e.rows.length : Int); omega
          · show (0 : Int) ≤ e.cx; omega
          · show e.cx ≤ rowCharsLen e e.cy
            rw [hlen]; omega

/-- Claim C2, as amended: an individual operation can leave the cursor
out of bounds, but the wrap pair WrapCursorY then WrapCursorX — which
mini.go's Render runs before every redraw (mini.go 398-401) — restores
the claimed invariant from any state: afterwards 0 ≤ cy ≤ len(rows),
and when cy is in range, 0 ≤ cx ≤ len(rows[cy].chars). -/
theorem cursor_bounds_after_wrap (e : Editor) :
    ∃ e2, wrapCursorX? (wrapCursorY e) = some e2 ∧
      0 ≤ e2.cy ∧ e2.cy ≤ (e2.rows.length : Int) ∧
      (e2.cy < (e2.rows.length : Int) → 0 ≤ e2.cx ∧ e2.cx ≤ rowCharsLen e2 e2.cy) := by
  have hrowsY : (wrapCursorY e).rows = e.rows := by
    unfold wrapCursorY; split_ifs <;> rfl
  have hcyY : 0 ≤ (wrapCursorY e).cy ∧
      (e.rows.length = 0 → (wrapCursorY e).cy = 0) ∧
      (e.rows.length ≠ 0 → (wrapCursorY e).cy < (e.rows.length : Int)) := by
    unfold wrapCursorY
    split_ifs with h1 h2 h3
    · refine ⟨le_refl 0, fun _ => rfl, fun hne => ?_⟩
      show (0 : Int) < (e.rows.length : Int); omega
    · exact ⟨le_refl 0, fun _ => rfl, fun hne => absurd h2 hne⟩
    · refine ⟨?_, fun h0 => absurd h0 h2, fun hne => ?_⟩
      · show 0 ≤ (e.rows.length : Int) - 1; omega
      · show (e.rows.length : Int) - 1 < (e.rows.length : Int); omega
    · exact ⟨by omega, fun h0 => absurd h0 h2, fun hne => by omega⟩
  obtain ⟨hy0, hyE, hyI⟩ := hcyY
  exact wrapCursorX_ok (wrapCursorY e) hy0 (by rw [hrowsY]; exact hyE) (by rw [hrowsY]; exact hyI)

/-- Helper: prefixMatch is the executable prefix test. -/
theorem prefixMatch_iff (t q : List Char) : prefixMatch t q = true ↔ q <+: t := by
  induction q generalizing t with
  | nil => simp [prefixMatch]
  | cons c cs ih =>
    cases t with
    | nil => simp [prefixMatch]
    | cons a as =>
      unfold prefixMatch
      rw [Bool.and_eq_true, ih, List.cons_prefix_cons]
      simp [eq_comm]

/-- Helper: the scan of the guarded findSubstring finds the leftmost
match at or after i, given that nothing matches before i. -/
theorem fsScanP1_spec (text query : List Char) :
    ∀ rem i, (∀ j < i, ¬ query <+: text.drop j) →
      (fsScanP1 text query i rem = -1 ∧ ∀ j, j < i + rem → ¬ query <+: text.drop j) ∨
      (∃ n : Nat, fsScanP1 text query i rem = (n : Int) ∧ query <+: text.drop n ∧
        ∀ j < n, ¬ query <+: text.drop j) := by
  intro rem
  induction rem with
  | zero =>
    intro i h
    exact Or.inl ⟨rfl, fun j hj => h j (by omega)⟩
  | succ rem ih =>
    intro i h
    unfold fsScanP1
    by_cases hp : prefixMatch (text.drop i) query = true
    · rw [if_pos hp]
      exact Or.inr ⟨i, rfl, (prefixMatch_iff _ _).mp hp, h⟩
    · rw [if_neg hp]
      have h1 : ∀ j < i + 1, ¬ query <+: text.drop j := by
        intro j hj
        rcases Nat.lt_succ_iff_lt_or_eq.mp hj with hj' | hj'
        · exact h j hj'
        · subst hj'; exact fun hpre => hp ((prefixMatch_iff _ _).mpr hpre)
      rcases ih (i + 1) h1 with ⟨h2, h3⟩ | ⟨n, h2, h3, h4⟩
      · exact Or.inl ⟨h2, fun j hj => h3 j (by omega)⟩
      · exact Or.inr ⟨n, h2, h3, h4⟩

/-- Claim C4: the findSubstring of sdk.go 250-263 is not total — on
text "ab" and query "bc" the inner loop reads text[2] and Go panics
with an index-out-of-range instead of returning the -1 sentinel (the
suffix "b" of the text matches a proper prefix of the query, so the
comparison loop runs past the end).  The repository itself fixes this
in the part_001 snapshot, whose guarded findSubstring is total and
returns the leftmost match position, as the second conjunct proves:
a returned n is a match position with no match before it, and -1 means
no position matches at all. -/
theorem findSubstring_panics_and_leftmost :
    findSubstringSdk (String.toList "ab") (String.toList "bc") = none ∧
    (∀ text query : List Char, query ≠ [] →
      (∀ n : Nat, findSubstringP1 text query = (n : Int) →
        query <+: text.drop n ∧ ∀ j < n, ¬ query <+: text.drop j) ∧
      (findSubstringP1 text query = -1 → ∀ j : Nat, ¬ query <+: text.drop j) ∧
      (findSubstringP1 text query = -1 ∨ ∃ n : Nat, findSubstringP1 text query = (n : Int))) := by
  constructor
  · decide
  · intro text query hq
    have hq1 : 0 < query.length := List.length_pos.mpr hq
    unfold findSubstringP1
    by_cases hlen : text.length < query.length
    · rw [if_pos hlen]
      have hno : ∀ j : Nat, ¬ query <+: text.drop j := by
        intro j hpre
        have := hpre.length_le
        rw [List.length_drop] at this
        omega
      refine ⟨fun n hn => by omega, fun _ => hno, Or.inl rfl⟩
    · rw [if_neg hlen]
      rcases fsScanP1_spec text query (text.length - query.length + 1) 0
          (fun j hj => absurd hj (by omega)) with ⟨h2, h3⟩ | ⟨n, h2, h3, h4⟩
      · refine ⟨fun n hn => by rw [h2] at hn; omega, fun _ => ?_, Or.inl h2⟩
        intro j hpre
        by_cases hj : j < text.length - query.length + 1
        · exact h3 j (by omega) hpre
        · have := hpre.length_le
          rw [List.length_drop] at this
          omega
      · refine ⟨fun m hm => ?_, fun hm => ?_, Or.inr ⟨n, h2⟩⟩
        · rw [h2] at hm
          have : m = n := by omega
          subst this
          exact ⟨h3, h4⟩
        · rw [h2] at hm; omega

/-- Witness for findSubstring_panics_and_leftmost: the guarded version
at a concrete text and nonempty query. -/
theorem findSubstring_panics_and_leftmost_witness :
    String.toList "b" ≠ [] ∧
    (∀ n : Nat, findSubstringP1 (String.toList "ab") (String.toList "b") = (n : Int) →
      String.toList "b" <+: (String.toList "ab").drop n ∧
      ∀ j < n, ¬ String.toList "b" <+: (String.toList "ab").drop j) :=
  ⟨by decide,
    (findSubstring_panics_and_leftmost.2 (String.toList "ab") (String.toList "b") (by decide)).1⟩

/-- Claim C7: DeleteRow and InsertRow (sdk.go 130-143, 279-297) really
are no-ops on any out-of-range index, but SetRow's guard (sdk.go
265-277) is off by one — it admits at = len(rows), where the write to
e.rows[at] panics; the third conjunct evaluates it on an empty document
at index 0, the state reached by pressing C in command mode on an
empty file.  So the claim's "no-ops and never panics" fails for
SetRow. -/
theorem row_ops_out_of_range (e : Editor) (i : Int) (cs : List Char)
    (hdel : i < 0 ∨ (e.rows.length : Int) ≤ i)
    (hins : i < 0 ∨ (e.rows.length : Int) < i) :
    deleteRowFS e i = some e ∧ insertRowFS e i cs = e ∧
      setRowFS baseEditor 0 [Char.ofNat 120] = none := by
  refine ⟨?_, ?_, by decide⟩
  · unfold deleteRowFS; rw [if_pos hdel]
  · unfold insertRowFS; rw [if_pos hins]

/-- Witness for row_ops_out_of_range at index -1 of an empty editor. -/
theorem row_ops_out_of_range_witness :
    deleteRowFS baseEditor (-1) = some baseEditor ∧
      insertRowFS baseEditor (-1) [] = baseEditor ∧
      setRowFS baseEditor 0 [Char.ofNat 120] = none :=
  row_ops_out_of_range baseEditor (-1) [] (by decide) (by decide)

/-- Claim C6: the search overlay is not transient.  In the part_000
Find the prior highlight array is copied into the local savedHl, which
is never read again, and after the session only the row under the
final cursor is recomputed; running the session typing "a" (overlay on
row 0), backspace, "b" (match moves to row 1) and enter (commit) on
the document ["xa", "b"] leaves hlMatch persisted in row 0's baseline
highlight array after the session has ended. -/
theorem search_overlay_persists :
    ((findP0 c6Editor [97, 127, 98, 10]).bind (fun e => e.rows[0]?)).map Row.hl =
      some [SyntaxHL.hlNormal, SyntaxHL.hlMatch] := by decide

/-- Helper: dropWhile never lengthens a list. -/
theorem length_dropWhile_le' (p : Char → Bool) (l : List Char) :
    (l.dropWhile p).length ≤ l.length := by
  induction l with
  | nil => simp [List.dropWhile]
  | cons c cs ih =>
    rw [List.dropWhile_cons]
    split
    · exact le_trans ih (by simp)
    · simp

/-- Helper: one unfolding step of the scanner on a nonempty input. -/
theorem scanAux_cons (f : Nat) (c : Char) (cs : List Char) :
    scanAux (f + 1) (c :: cs) =
      match (c :: cs).dropWhile (fun x => x ≠ '\n') with
      | [] => [dropCR ((c :: cs).takeWhile (fun x => x ≠ '\n'))]
      | _ :: rest => dropCR ((c :: cs).takeWhile (fun x => x ≠ '\n')) :: scanAux f rest := rfl

/-- Helper: splitting fuel only needs to dominate the content length. -/
theorem scanAux_fuel (f1 : Nat) : ∀ (f2 : Nat) (s : List Char),
    s.length ≤ f1 → s.length ≤ f2 → scanAux f1 s = scanAux f2 s := by
  induction f1 with
  | zero =>
    intro f2 s h1 _
    have hs : s = [] := List.eq_nil_of_length_eq_zero (by omega)
    subst hs
    cases f2 <;> rfl
  | succ f1 ih =>
    intro f2 s h1 h2
    cases s with
    | nil => cases f2 <;> rfl
    | cons c cs =>
      cases f2 with
      | zero => simp at h2
      | succ f2 =>
        rw [scanAux_cons, scanAux_cons]
        have hd := length_dropWhile_le' (fun x => x ≠ '\n') (c :: cs)
        cases hrest : (c :: cs).dropWhile (fun x => x ≠ '\n') with
        | nil => rfl
        | cons d rest =>
          rw [hrest] at hd
          simp only [List.length_cons] at hd h1 h2
          show dropCR (List.takeWhile (fun x => x ≠ '\n') (c :: cs)) :: scanAux f1 rest =
            dropCR (List.takeWhile (fun x => x ≠ '\n') (c :: cs)) :: scanAux f2 rest
          rw [ih f2 rest (by omega) (by omega)]

/-- Helper: the first token of a line followed by a newline. -/
theorem takeWhile_line (r tail : List Char) (h : Char.ofNat 10 ∉ r) :
    (r ++ Char.ofNat 10 :: tail).takeWhile (fun x => x ≠ '\n') = r := by
  induction r with
  | nil => simp [List.takeWhile]
  | cons c cs ih =>
    simp only [List.mem_cons, not_or] at h
    have hc : c ≠ '\n' := fun hcc => h.1 (by rw [hcc])
    rw [List.cons_append, List.takeWhile_cons, if_pos (by simpa using hc), ih h.2]

/-- Helper: what remains after the first token. -/
theorem dropWhile_line (r tail : List Char) (h : Char.ofNat 10 ∉ r) :
    (r ++ Char.ofNat 10 :: tail).dropWhile (fun x => x ≠ '\n') = Char.ofNat 10 :: tail := by
  induction r with
  | nil => simp [List.dropWhile]
  | cons c cs ih =>
    simp only [List.mem_cons, not_or] at h
    have hc : c ≠ '\n' := fun hcc => h.1 (by rw [hcc])
    rw [List.cons_append, List.dropWhile_cons, if_pos (by simpa using hc), ih h.2]

/-- Claim C9, counterexample: a row whose chars contain a newline does
not survive the round trip — Save writes it as two lines and OpenFile
reads back two rows. -/
theorem save_open_roundtrip_counterexample :
    openFileRows (saveContent [[Char.ofNat 10]]) ≠ [[Char.ofNat 10]] := by decide

/-- Claim C9, as amended: Save (mini.go 460-467) writes each row's
chars followed by one newline, and OpenFile's scanner (mini.go
522-532) reconstructs exactly the original row contents, for every
document whose rows contain no newline and do not end in a carriage
return (a row with an embedded newline is split in two, and a trailing
carriage return is eaten by ScanLines, as the counterexample shows;
the trailing newline Save appends to the last row is the normalization
the claim already ignores). -/
theorem save_open_roundtrip (rs : List (List Char))
    (h : ∀ r ∈ rs, Char.ofNat 10 ∉ r ∧ r.getLast? ≠ some (Char.ofNat 13)) :
    openFileRows (saveContent rs) = rs := by
  induction rs with
  | nil => rfl
  | cons r rest ih =>
    obtain ⟨hnl, hcr⟩ := h r (by simp)
    have hrest := fun x hx => h x (List.mem_cons_of_mem _ hx)
    have hs : saveContent (r :: rest) = r ++ Char.ofNat 10 :: saveContent rest := by
      simp [saveContent]
    have hdropCR : dropCR r = r := by
      unfold dropCR
      rw [if_neg hcr]
    obtain ⟨c, cs, hsplit⟩ :
        ∃ c cs, r ++ Char.ofNat 10 :: saveContent rest = c :: cs := by
      cases r with
      | nil => exact ⟨_, _, rfl⟩
      | cons a as => exact ⟨_, _, rfl⟩
    have hcslen : (saveContent rest).length ≤ cs.length := by
      have := congrArg List.length hsplit
      simp at this
      omega
    unfold openFileRows
    rw [hs, hsplit]
    show scanAux (cs.length + 1) (c :: cs) = r :: rest
    rw [scanAux_cons, ← hsplit, takeWhile_line r _ hnl, dropWhile_line r _ hnl]
    simp only [hdropCR, List.cons.injEq, true_and]
    rw [scanAux_fuel cs.length (saveContent rest).length (saveContent rest) hcslen (le_refl _)]
    exact ih hrest

/-- Witness for save_open_roundtrip on a concrete two-row document. -/
theorem save_open_roundtrip_witness :
    openFileRows (saveContent [String.toList "ab", String.toList "cd"]) =
      [String.toList "ab", String.toList "cd"] :=
  save_open_roundtrip [String.toList "ab", String.toList "cd"] (by decide)

/-- Helper: the highlight recursion is insensitive to extra fuel once
the fuel reaches rows.length - y, because each recursive call moves to
the strictly larger row index y+1 and row updates preserve the number
of rows. -/
theorem updateHighlightFuel_congr : ∀ (f1 f2 : Nat) (e : Editor) (y : Nat),
    e.rows.length - y ≤ f1 → e.rows.length - y ≤ f2 →
    updateHighlightFuel f1 e y = updateHighlightFuel f2 e y := by
  intro f1
  induction f1 with
  | zero =>
    intro f2 e y h1 _
    have hnone : e.rows[y]? = none := List.getElem?_eq_none (by omega)
    cases f2 with
    | zero => rfl
    | succ g => simp [updateHighlightFuel, hnone]
  | succ f1 ih =>
    intro f2 e y h1 h2
    cases hrow : e.rows[y]? with
    | none =>
      cases f2 with
      | zero =>
        have : e.rows.length ≤ y := by
          by_contra hlt
          rw [List.getElem?_eq_getElem (by omega)] at hrow
          exact Option.noConfusion hrow
        simp [updateHighlightFuel, hrow]
      | succ g => simp [updateHighlightFuel, hrow]
    | some row =>
      have hy : y < e.rows.length := by
        by_contra hge
        rw [List.getElem?_eq_none (by omega)] at hrow
        exact Option.noConfusion hrow
      cases f2 with
      | zero => omega
      | succ g =>
        simp only [updateHighlightFuel, hrow]
        cases e.syn with
        | none => rfl
        | some s =>
          simp only []
          split_ifs with hcond
          · apply ih
            · simpa using by omega
            · simpa using by omega
          · rfl

/-- Helper: with fuel rows.length - y and an in-range row index the
highlight recursion always produces a state (it never runs out of
fuel and never indexes out of range). -/
theorem updateHighlightFuel_isSome : ∀ (f : Nat) (e : Editor) (y : Nat),
    y < e.rows.length → e.rows.length - y ≤ f →
    (updateHighlightFuel f e y).isSome := by
  intro f
  induction f with
  | zero => intro e y hy hf; omega
  | succ f ih =>
    intro e y hy hf
    have hrow : e.rows[y]? = some e.rows[y] := List.getElem?_eq_getElem hy
    simp only [updateHighlightFuel, hrow]
    cases e.syn with
    | none => rfl
    | some s =>
      simp only []
      split_ifs with hcond
      · apply ih
        · simpa using hcond.2
        · simpa using by omega
      · rfl

/-- Claim C8: updateHighlight terminates on every document and row
index, and the cross-row propagation (mini.go 706-710) visits at most
rows.length - y rows: any fuel of at least rows.length - y computes
the same result as the natural fuel, and on an in-range index the
recursion completes with a state (never exhausting that fuel). -/
theorem updateHighlight_terminates :
    (∀ (f : Nat) (e : Editor) (y : Nat), e.rows.length - y ≤ f →
      updateHighlightFuel f e y = updateHighlight e y) ∧
    (∀ (e : Editor) (y : Nat), y < e.rows.length → (updateHighlight e y).isSome) := by
  constructor
  · intro f e y hf
    exact updateHighlightFuel_congr f (e.rows.length - y) e y hf (le_refl _)
  · intro e y hy
    exact updateHighlightFuel_isSome (e.rows.length - y) e y hy (le_refl _)

/-- Witness for updateHighlight_terminates on a concrete two-row
document with surplus fuel. -/
theorem updateHighlight_terminates_witness :
    updateHighlightFuel 5 c6Editor 0 = updateHighlight c6Editor 0 ∧
      (updateHighlight c6Editor 0).isSome :=
  ⟨updateHighlight_terminates.1 5 c6Editor 0 (by decide),
    updateHighlight_terminates.2 c6Editor 0 (by decide)⟩

/-- Claim C5: word-boundary keyword matching.  First conjunct, over
every keyword list and text: whenever checkKeywordMatch returns a
keyword, that keyword is a prefix of the text that is followed by
end-of-text or a separator character — so a keyword embedded inside a
longer token (followed by a non-separator) is never the source of a
keyword highlight, for any profile.  Second conjunct: running
updateRow with the go profile on the row "form", whose token starts
with the keyword "for" but continues with a letter, categorizes no
character as a keyword (the whole row stays hlNormal). -/
theorem keyword_word_boundary :
    (∀ (kws : List (List Char)) (text kw : List Char),
      checkKeywordMatch kws text = kw → kw ≠ [] →
      kw <+: text ∧ (kw.length = text.length ∨
        (kw.length < text.length ∧ isSeparator (text.getD kw.length ' ') = true))) ∧
    ((updateRow? c5Editor 0).bind (fun e => e.rows[0]?)).map Row.hl =
      some (List.replicate 4 SyntaxHL.hlNormal) := by
  constructor
  · intro kws
    induction kws with
    | nil =>
      intro text kw h hne
      exact absurd h.symm hne
    | cons k ks ih =>
      intro text kw h hne
      unfold checkKeywordMatch at h
      split_ifs at h with h1 h2 h3
      · exact ih text kw h hne
      · exact ih text kw h hne
      · push_neg at h3
        subst h
        refine ⟨?_, ?_⟩
        · rw [h2]
          exact List.take_prefix _ _
        · by_cases hl : k.length = text.length
          · exact Or.inl hl
          · exact Or.inr ⟨by omega, by simpa using h3 hl⟩
      · exact ih text kw h hne
  · decide

/-- Witness for keyword_word_boundary: the go keyword "for" matched in
the text "for," where a separator follows it. -/
theorem keyword_word_boundary_witness :
    String.toList "for" <+: String.toList "for," ∧
    ((String.toList "for").length = (String.toList "for,").length ∨
      ((String.toList "for").length < (String.toList "for,").length ∧
        isSeparator ((String.toList "for,").getD (String.toList "for").length ' ') = true)) :=
  keyword_word_boundary.1 goSyntax.keywords (String.toList "for,") (String.toList "for")
    (by decide) (by decide)

/-- Helper: an index with a value is in range. -/
theorem lt_of_getElem?_some {α : Type} {l : List α} {i : Nat} {a : α}
    (h : l[i]? = some a) : i < l.length := by
  by_contra hge
  rw [List.getElem?_eq_none (by omega)] at h
  exact Option.noConfusion h

/-- Helper: writing one slot preserves the others. -/
theorem getD_set_ne' (l : List SyntaxHL) (i j : Nat) (v d : SyntaxHL) (h : i ≠ j) :
    (l.set i v).getD j d = l.getD j d := by
  rw [List.getD_eq_getElem?_getD, List.getD_eq_getElem?_getD, List.getElem?_set_ne h]

/-- Helper: reading back an in-range write. -/
theorem getD_set_self' (l : List SyntaxHL) (i : Nat) (v d : SyntaxHL) (h : i < l.length) :
    (l.set i v).getD i d = v := by
  rw [List.getD_eq_getElem?_getD, List.getElem?_set_self h]
  rfl

/-- Helper: a slot after a write holds the written value or its old
value. -/
theorem getD_set_or (l : List SyntaxHL) (i j : Nat) (v d : SyntaxHL) :
    (l.set i v).getD j d = v ∨ (l.set i v).getD j d = l.getD j d := by
  by_cases h : i = j
  · subst h
    by_cases hlt : i < l.length
    · exact Or.inl (getD_set_self' l i v d hlt)
    · rw [List.set_eq_of_length_le (by omega)]
      exact Or.inr rfl
  · exact Or.inr (getD_set_ne' l i j v d h)

/-- Helper: setRange does not change the length. -/
theorem length_setRange : ∀ (n : Nat) (hl : List SyntaxHL) (i : Nat) (v : SyntaxHL),
    (setRange hl i n v).length = hl.length := by
  intro n
  induction n with
  | zero => intro hl i v; rfl
  | succ n ih =>
    intro hl i v
    show (setRange (hl.set i v) (i + 1) n v).length = hl.length
    rw [ih, List.length_set]

/-- Helper: setRange leaves the slots before the range alone. -/
theorem getD_setRange_lt : ∀ (n : Nat) (hl : List SyntaxHL) (i : Nat) (v d : SyntaxHL)
    (j : Nat), j < i → (setRange hl i n v).getD j d = hl.getD j d := by
  intro n
  induction n with
  | zero => intro hl i v d j _; rfl
  | succ n ih =>
    intro hl i v d j hj
    show (setRange (hl.set i v) (i + 1) n v).getD j d = hl.getD j d
    rw [ih _ _ _ _ _ (by omega), getD_set_ne' _ _ _ _ _ (by omega)]

/-- Helper: every slot after setRange holds the written value or its
old value. -/
theorem getD_setRange_or : ∀ (n : Nat) (hl : List SyntaxHL) (i : Nat) (v d : SyntaxHL)
    (j : Nat), (setRange hl i n v).getD j d = v ∨ (setRange hl i n v).getD j d = hl.getD j d := by
  intro n
  induction n with
  | zero => intro hl i v d j; exact Or.inr rfl
  | succ n ih =>
    intro hl i v d j
    show (setRange (hl.set i v) (i + 1) n v).getD j d = v ∨ _ = hl.getD j d
    rcases ih (hl.set i v) (i + 1) v d j with h | h
    · exact Or.inl h
    · rcases getD_set_or hl i j v d with h2 | h2
      · exact Or.inl (h.trans h2)
      · exact Or.inr (h.trans h2)

/-- Helper: an in-range slot inside the range holds the written
value. -/
theorem getD_setRange_in : ∀ (n : Nat) (hl : List SyntaxHL) (i : Nat) (v d : SyntaxHL)
    (j : Nat), i ≤ j → j < i + n → j < hl.length → (setRange hl i n v).getD j d = v := by
  intro n
  induction n with
  | zero => intro hl i v d j _ h2 _; omega
  | succ n ih =>
    intro hl i v d j h1 h2 h3
    show (setRange (hl.set i v) (i + 1) n v).getD j d = v
    by_cases hij : j = i
    · subst hij
      rw [getD_setRange_lt n _ _ _ _ _ (by omega)]
      exact getD_set_self' hl j v d h3
    · exact ih (hl.set i v) (i + 1) v d j (by omega) (by omega) (by rw [List.length_set]; omega)

/-- Helper: the highlight pass preserves the length of the highlight
array. -/
theorem hlLoop_length (s : EditorSyntax) (runes : List Char) :
    ∀ (fuel idx : Nat) (hl : List SyntaxHL) (p : Bool) (q : Option Char) (c : Bool),
      (hlLoop s runes fuel idx hl p q c).hl.length = hl.length := by
  intro fuel
  induction fuel with
  | zero => intro idx hl p q c; rfl
  | succ fuel ih =>
    intro idx hl p q c
    cases hr : runes[idx]? with
    | none => simp [hlLoop, hr]
    | some r =>
      simp only [hlLoop, hr]
      split_ifs
      all_goals try simp [length_setRange]
      all_goals try ((rw [ih]) <;> simp [length_setRange, List.length_set])
      all_goals
        (cases hkw : checkIfKeyword s (runes.drop idx) with
         | none => simp only [hkw]; rw [ih]
         | some kwv =>
            simp only [hkw]
            rw [ih]
            simp [length_setRange])

/-- Helper: the highlight pass never rewrites slots before its
starting index. -/
theorem hlLoop_stable (s : EditorSyntax) (runes : List Char) (d : SyntaxHL) :
    ∀ (fuel idx : Nat) (hl : List SyntaxHL) (p : Bool) (q : Option Char) (c : Bool)
      (j : Nat), j < idx →
      (hlLoop s runes fuel idx hl p q c).hl.getD j d = hl.getD j d := by
  intro fuel
  induction fuel with
  | zero => intro idx hl p q c j _; rfl
  | succ fuel ih =>
    intro idx hl p q c j hj
    cases hr : runes[idx]? with
    | none => simp [hlLoop, hr]
    | some r =>
      simp only [hlLoop, hr]
      split_ifs
      all_goals
        try (show (setRange hl idx (runes.length - idx) SyntaxHL.hlComment).getD j d =
              hl.getD j d
             exact getD_setRange_lt _ _ _ _ _ _ hj)
      all_goals
        try (rw [ih _ _ _ _ _ _ (by omega)]
             repeat
               first
               | rw [getD_setRange_lt _ _ _ _ _ _ (by omega)]
               | rw [getD_set_ne' _ _ _ _ _ (by omega)])
      all_goals
        (cases hkw : checkIfKeyword s (runes.drop idx) with
         | none => simp only [hkw]; rw [ih _ _ _ _ _ _ (by omega)]
         | some kwv =>
            simp only [hkw]
            rw [ih _ _ _ _ _ _ (by omega), getD_setRange_lt _ _ _ _ _ _ hj])

/-- Helper: a keyword match colours only with the two keyword
categories. -/
theorem checkIfKeyword_hl (s : EditorSyntax) (t kw : List Char) (hlv : SyntaxHL)
    (h : checkIfKeyword s t = some (kw, hlv)) :
    hlv = SyntaxHL.hlKeyword1 ∨ hlv = SyntaxHL.hlKeyword2 := by
  simp only [checkIfKeyword] at h
  split_ifs at h
  · simp only [Option.some.injEq, Prod.mk.injEq] at h
    exact Or.inl h.2.symm
  · simp only [Option.some.injEq, Prod.mk.injEq] at h
    exact Or.inr h.2.symm

/-- Helper: writing a non-comment category preserves freedom from
comment categories. -/
theorem inv_set (hl : List SyntaxHL) (i : Nat) (v : SyntaxHL)
    (hv1 : v ≠ SyntaxHL.hlComment) (hv2 : v ≠ SyntaxHL.hlMlComment)
    (h : ∀ j, hl.getD j SyntaxHL.hlNormal ≠ SyntaxHL.hlComment ∧
      hl.getD j SyntaxHL.hlNormal ≠ SyntaxHL.hlMlComment) :
    ∀ j, (hl.set i v).getD j SyntaxHL.hlNormal ≠ SyntaxHL.hlComment ∧
      (hl.set i v).getD j SyntaxHL.hlNormal ≠ SyntaxHL.hlMlComment := by
  intro j
  rcases getD_set_or hl i j v SyntaxHL.hlNormal with h2 | h2 <;> rw [h2]
  · exact ⟨hv1, hv2⟩
  · exact h j

/-- Helper: writing a range of a non-comment category preserves
freedom from comment categories. -/
theorem inv_setRange (n : Nat) (hl : List SyntaxHL) (i : Nat) (v : SyntaxHL)
    (hv1 : v ≠ SyntaxHL.hlComment) (hv2 : v ≠ SyntaxHL.hlMlComment)
    (h : ∀ j, hl.getD j SyntaxHL.hlNormal ≠ SyntaxHL.hlComment ∧
      hl.getD j SyntaxHL.hlNormal ≠ SyntaxHL.hlMlComment) :
    ∀ j, (setRange hl i n v).getD j SyntaxHL.hlNormal ≠ SyntaxHL.hlComment ∧
      (setRange hl i n v).getD j SyntaxHL.hlNormal ≠ SyntaxHL.hlMlComment := by
  intro j
  rcases getD_setRange_or n hl i v SyntaxHL.hlNormal j with h2 | h2 <;> rw [h2]
  · exact ⟨hv1, hv2⟩
  · exact h j

/-- Helper: a pass started inside an unterminated multiline comment,
over a row in which the closing marker never occurs, marks every
remaining character hlMlComment and ends still inside the comment. -/
theorem hlLoop_inComment_all (s : EditorSyntax) (runes : List Char)
    (hmcs : s.mcs ≠ []) (hmce : s.mce ≠ [])
    (hnomce : ∀ j : Nat, ¬ (s.mce.isPrefixOf (runes.drop j) = true)) :
    ∀ (fuel idx : Nat) (hl : List SyntaxHL) (p : Bool),
      runes.length ≤ idx + fuel → hl.length = runes.length →
      (∀ j, idx ≤ j → j < runes.length →
        (hlLoop s runes fuel idx hl p none true).hl.getD j SyntaxHL.hlNormal =
          SyntaxHL.hlMlComment) ∧
      (hlLoop s runes fuel idx hl p none true).inComment = true := by
  intro fuel
  induction fuel with
  | zero =>
    intro idx hl p hfuel _
    exact ⟨fun j h1 h2 => by omega, rfl⟩
  | succ fuel ih =>
    intro idx hl p hfuel hlen
    cases hr : runes[idx]? with
    | none =>
      have hge : runes.length ≤ idx := by
        by_contra h
        rw [List.getElem?_eq_getElem (by omega)] at hr
        exact Option.noConfusion hr
      constructor
      · intro j h1 h2; omega
      · simp [hlLoop, hr]
    | some r =>
      have hidx : idx < runes.length := lt_of_getElem?_some hr
      have key : hlLoop s runes (fuel + 1) idx hl p none true =
          hlLoop s runes fuel (idx + 1) (hl.set idx SyntaxHL.hlMlComment) p none true := by
        simp only [hlLoop, hr]
        rw [if_neg (fun h => h.2.2.1 trivial)]
        rw [if_pos ⟨hmcs, hmce, trivial, trivial⟩]
        rw [if_neg (hnomce idx)]
      rw [key]
      have hres := ih (idx + 1) (hl.set idx SyntaxHL.hlMlComment) p (by omega)
        (by rw [List.length_set]; exact hlen)
      constructor
      · intro j h1 h2
        by_cases hji : j = idx
        · subst hji
          rw [hlLoop_stable s runes SyntaxHL.hlNormal fuel (j + 1)
            (hl.set j SyntaxHL.hlMlComment) p none true j (by omega)]
          exact getD_set_self' hl j SyntaxHL.hlMlComment SyntaxHL.hlNormal (by omega)
        · exact hres.1 j (by omega) h2
      · exact hres.2

/-- Helper: a pass started outside any comment, over a row in which
neither the single-line marker nor the multiline opener ever occurs,
never assigns a comment category and ends outside any comment. -/
theorem hlLoop_no_comment (s : EditorSyntax) (runes : List Char)
    (hscs : ∀ j : Nat, ¬ (s.scs.isPrefixOf (runes.drop j) = true))
    (hmcs : ∀ j : Nat, ¬ (s.mcs.isPrefixOf (runes.drop j) = true)) :
    ∀ (fuel idx : Nat) (hl : List SyntaxHL) (p : Bool) (q : Option Char),
      (∀ j, hl.getD j SyntaxHL.hlNormal ≠ SyntaxHL.hlComment ∧
        hl.getD j SyntaxHL.hlNormal ≠ SyntaxHL.hlMlComment) →
      (∀ j, (hlLoop s runes fuel idx hl p q false).hl.getD j SyntaxHL.hlNormal ≠
          SyntaxHL.hlComment ∧
        (hlLoop s runes fuel idx hl p q false).hl.getD j SyntaxHL.hlNormal ≠
          SyntaxHL.hlMlComment) ∧
      (hlLoop s runes fuel idx hl p q false).inComment = false := by
  intro fuel
  induction fuel with
  | zero => intro idx hl p q hinv; exact ⟨hinv, rfl⟩
  | succ fuel ih =>
    intro idx hl p q hinv
    cases hr : runes[idx]? with
    | none =>
      have key0 : hlLoop s runes (fuel + 1) idx hl p q false = ⟨hl, false⟩ := by
        simp only [hlLoop, hr]
      rw [key0]
      exact ⟨hinv, rfl⟩
    | some r =>
      simp only [hlLoop, hr]
      rw [if_neg (fun h => hscs idx h.2.2.2)]
      rw [if_neg (fun h => Bool.noConfusion h.2.2.2)]
      rw [if_neg (fun h => hmcs idx h.2.2.2)]
      split_ifs
      all_goals
        try (exact ih _ _ _ _ (inv_set _ _ SyntaxHL.hlString (by decide) (by decide)
          (inv_set _ _ SyntaxHL.hlString (by decide) (by decide) hinv)))
      all_goals
        try (exact ih _ _ _ _ (inv_set _ _ SyntaxHL.hlString (by decide) (by decide) hinv))
      all_goals
        try (exact ih _ _ _ _ (inv_set _ _ SyntaxHL.hlNumber (by decide) (by decide) hinv))
      all_goals
        (cases hkw : checkIfKeyword s (runes.drop idx) with
         | none =>
            try simp only [hkw]
            exact ih _ _ _ _ hinv
         | some kwv =>
            try simp only [hkw]
            rcases kwv with ⟨kw, hlv⟩
            first
            | exact ih _ _ _ _ hinv
            | (rcases checkIfKeyword_hl s (runes.drop idx) kw hlv hkw with hv | hv <;> subst hv <;>
                exact ih _ _ _ _ (inv_setRange _ _ _ _ (fun h => by simp at h) (fun h => by simp at h) hinv)))

/-- Helper: rendering a tab-free row is the identity (tabs are the
only characters updateRow expands). -/
theorem renderLoop_no_tab : ∀ (cs : List Char) (t cols : Nat), '\t' ∉ cs →
    renderLoop t cs cols = cs := by
  intro cs
  induction cs with
  | nil => intro t cols _; rfl
  | cons c cs ih =>
    intro t cols h
    simp only [List.mem_cons, not_or] at h
    unfold renderLoop
    rw [if_neg (fun hc => h.1 hc.symm)]
    rw [ih t (cols + runeWidth c) h.2]

/-- Helper: renderChars is the identity on tab-free rows. -/
theorem renderChars_no_tab (cs : List Char) (h : '\t' ∉ cs) : renderChars 8 cs = cs :=
  renderLoop_no_tab cs 8 0 h

/-- Helper: a fresh highlight array reads hlNormal everywhere. -/
theorem getD_replicate_self (n j : Nat) :
    (List.replicate n SyntaxHL.hlNormal).getD j SyntaxHL.hlNormal = SyntaxHL.hlNormal := by
  rw [List.getD_eq_getElem?_getD, List.getElem?_replicate]
  split <;> rfl

/-- Claim C1: cross-line comment propagation for the go profile (whose
multiline comment markers are set).  With row 0 consisting exactly of
the opening marker and row 1 an arbitrary tab-free row containing no
comment marker, updateHighlight(0) propagates into row 1 and
categorizes every one of its characters as multiline comment even
though row 1 contains no marker; after the marker is removed from
row 0 and that row is recomputed through updateRow, the propagation
runs again and no character of row 1 is categorized as any comment. -/
theorem crossline_comment_propagation (cs : List Char)
    (htab : '\t' ∉ cs)
    (hscs : ∀ j, j < cs.length → ¬ (goSyntax.scs.isPrefixOf (cs.drop j) = true))
    (hmcs : ∀ j, j < cs.length → ¬ (goSyntax.mcs.isPrefixOf (cs.drop j) = true))
    (hmce : ∀ j, j < cs.length → ¬ (goSyntax.mce.isPrefixOf (cs.drop j) = true)) :
    ∃ e1 r1, updateHighlight (c1Editor cs) 0 = some e1 ∧ e1.rows[1]? = some r1 ∧
      (∀ j, j < cs.length → r1.hl.getD j SyntaxHL.hlNormal = SyntaxHL.hlMlComment) ∧
      ∃ e2 r2, updateRow? (removeRowChars e1 0) 0 = some e2 ∧ e2.rows[1]? = some r2 ∧
        (∀ j, r2.hl.getD j SyntaxHL.hlNormal ≠ SyntaxHL.hlComment ∧
          r2.hl.getD j SyntaxHL.hlNormal ≠ SyntaxHL.hlMlComment) := by
  have hrender : renderChars 8 cs = cs := renderChars_no_tab cs htab
  have hscs' : ∀ j : Nat, ¬ (goSyntax.scs.isPrefixOf (cs.drop j) = true) := by
    intro j
    by_cases hj : j < cs.length
    · exact hscs j hj
    · rw [List.drop_eq_nil_of_le (by omega)]; decide
  have hmcs' : ∀ j : Nat, ¬ (goSyntax.mcs.isPrefixOf (cs.drop j) = true) := by
    intro j
    by_cases hj : j < cs.length
    · exact hmcs j hj
    · rw [List.drop_eq_nil_of_le (by omega)]; decide
  have hmce' : ∀ j : Nat, ¬ (goSyntax.mce.isPrefixOf (cs.drop j) = true) := by
    intro j
    by_cases hj : j < cs.length
    · exact hmce j hj
    · rw [List.drop_eq_nil_of_le (by omega)]; decide
  have hA := hlLoop_inComment_all goSyntax cs (by decide) (by decide) hmce'
    (cs.length + 1) 0 (List.replicate cs.length SyntaxHL.hlNormal) true
    (by omega) (by simp)
  have hB := hlLoop_no_comment goSyntax cs hscs' hmcs'
    (cs.length + 1) 0 (List.replicate cs.length SyntaxHL.hlNormal) true none
    (fun j => by refine ⟨?_, ?_⟩ <;> rw [getD_replicate_self] <;> decide)
  set R0a : Row := ⟨String.toList "/*", renderChars 8 (String.toList "/*"),
      [SyntaxHL.hlMlComment, SyntaxHL.hlMlComment], true, 0⟩ with hR0a
  set E1mid : Editor := { c1Editor cs with rows := [R0a, mkRawRow cs 1] } with hE1mid
  have hstep1 : updateHighlight (c1Editor cs) 0 = updateHighlightFuel 1 E1mid 1 := rfl
  set P2 : PassOut := hlLoop goSyntax (renderChars 8 cs) ((renderChars 8 cs).length + 1) 0
      (List.replicate (renderChars 8 cs).length SyntaxHL.hlNormal) true none true with hP2def
  set R1a : Row := ⟨cs, renderChars 8 cs, P2.hl, P2.inComment, 1⟩ with hR1a
  set E1 : Editor := { c1Editor cs with rows := [R0a, R1a] } with hE1
  have hstep2 : updateHighlightFuel 1 E1mid 1 = some E1 := by
    have hlook : E1mid.rows[1]? = some (mkRawRow cs 1) := rfl
    have hsyn : (c1Editor cs).syn = some goSyntax := rfl
    have hprev : E1mid.rows[1 - 1]? = some R0a := rfl
    have hrend : (mkRawRow cs 1).render = renderChars 8 cs := rfl
    have hunc : (mkRawRow cs 1).hasUnclosedComment = false := rfl
    simp only [updateHighlightFuel, hlook, hsyn, hprev, hrend, hunc]
    rw [if_neg (fun h => absurd h.2 (by simp [hE1mid, List.length_set]))]
    rfl
  set P3 : PassOut := hlLoop goSyntax (renderChars 8 cs) ((renderChars 8 cs).length + 1) 0
      (List.replicate (renderChars 8 cs).length SyntaxHL.hlNormal) true none false with hP3def
  set R1b : Row := ⟨cs, renderChars 8 cs, P3.hl, P3.inComment, 1⟩ with hR1b
  set R0c : Row := ⟨[], [], [], false, 0⟩ with hR0c
  set E3mid : Editor := { c1Editor cs with rows := [R0c, R1a] } with hE3mid
  set E4 : Editor := { c1Editor cs with rows := [R0c, R1b] } with hE4
  have hstep3 : updateRow? (removeRowChars E1 0) 0 = updateHighlightFuel 1 E3mid 1 := rfl
  have hstep4 : updateHighlightFuel 1 E3mid 1 = some E4 := by
    have hlook : E3mid.rows[1]? = some R1a := rfl
    have hsyn : (c1Editor cs).syn = some goSyntax := rfl
    have hprev : E3mid.rows[1 - 1]? = some R0c := rfl
    have hrend : R1a.render = renderChars 8 cs := rfl
    have hunc : R1a.hasUnclosedComment = P2.inComment := rfl
    simp only [updateHighlightFuel, hlook, hsyn, hprev, hrend, hunc]
    rw [if_neg (fun h => absurd h.2 (by simp [hE3mid, List.length_set]))]
    rfl
  refine ⟨E1, R1a, hstep1.trans hstep2, rfl, ?_, E4, R1b, hstep3.trans hstep4, rfl, ?_⟩
  · intro j hj
    show P2.hl.getD j SyntaxHL.hlNormal = SyntaxHL.hlMlComment
    rw [hP2def]
    rw [hrender]
    exact hA.1 j (by omega) hj
  · intro j
    show P3.hl.getD j SyntaxHL.hlNormal ≠ SyntaxHL.hlComment ∧
      P3.hl.getD j SyntaxHL.hlNormal ≠ SyntaxHL.hlMlComment
    rw [hP3def]
    rw [hrender]
    exact hB.1 j

/-- Witness for crossline_comment_propagation with second row "abc". -/
theorem crossline_comment_propagation_witness :
    ∃ e1 r1, updateHighlight (c1Editor (String.toList "abc")) 0 = some e1 ∧
      e1.rows[1]? = some r1 ∧
      (∀ j, j < (String.toList "abc").length →
        r1.hl.getD j SyntaxHL.hlNormal = SyntaxHL.hlMlComment) ∧
      ∃ e2 r2, updateRow? (removeRowChars e1 0) 0 = some e2 ∧ e2.rows[1]? = some r2 ∧
        (∀ j, r2.hl.getD j SyntaxHL.hlNormal ≠ SyntaxHL.hlComment ∧
          r2.hl.getD j SyntaxHL.hlNormal ≠ SyntaxHL.hlMlComment) :=
  crossline_comment_propagation (String.toList "abc") (by decide) (by decide) (by decide)
    (by decide)

/-- Helper: a successful fiSearch never reports the session finished;
both its branches return the flag false. -/
theorem fiSearch_not_finished (sv : FISaved) (e : Editor) (q : List Char)
    (e1 : Editor) (q1 : List Char) (b : Bool)
    (h : fiSearch sv e q = some (e1, q1, b)) : b = false := by
  unfold fiSearch at h
  rcases hfind : eFindP1 e e.cx e.cy q with _ | ⟨x, y⟩ <;> rw [hfind] at h
  · exact absurd h (by simp)
  · by_cases hx : x = -1 <;> simp [hx] at h
    · exact h.2.2
    · exact h.2.2

/-- Helper: a key other than escape, ctrl-q, enter and carriage return
never finishes a FindInteractive session: every such keystroke falls
through to fiSearch, whose flag is false. -/
theorem fiStep_not_finished (sv : FISaved) (e : Editor) (q : List Char) (k : Key)
    (hk1 : k ≠ keyEscape) (hk2 : k ≠ ctrlQ) (hk3 : k ≠ keyEnter) (hk4 : k ≠ keyCarriageReturn)
    (e1 : Editor) (q1 : List Char) (b : Bool)
    (h : fiStep sv e q k = some (e1, q1, b)) : b = false := by
  unfold fiStep at h
  by_cases hd : k = keyDelete ∨ k = keyBackspace
  · rw [if_pos hd] at h
    by_cases hq : q ≠ []
    · rw [if_pos hq] at h
      exact fiSearch_not_finished sv { e with cx := sv.cx, cy := sv.cy } q.dropLast e1 q1 b h
    · rw [if_neg hq] at h
      exact fiSearch_not_finished sv e q e1 q1 b h
  · rw [if_neg hd, if_neg (by rintro (h' | h') <;> [exact hk1 h'; exact hk2 h']),
      if_neg (by rintro (h' | h') <;> [exact hk3 h'; exact hk4 h'])] at h
    exact fiSearch_not_finished sv e (if isPrintableM k then q ++ [Char.ofNat k.toNat] else q)
      e1 q1 b h

/-- Helper: a FindInteractive session driven by non-finishing keys and
ended by escape restores exactly the four saved fields, whatever the
intermediate states were. -/
theorem fiRun_escape_restores (sv : FISaved) (keys : List Key) :
    ∀ (e : Editor) (q : List Char) (e' : Editor),
    (∀ k ∈ keys, k ≠ keyEscape ∧ k ≠ ctrlQ ∧ k ≠ keyEnter ∧ k ≠ keyCarriageReturn) →
    fiRun sv e q (keys ++ [keyEscape]) = some e' →
    e'.cx = sv.cx ∧ e'.cy = sv.cy ∧ e'.colOffset = sv.colOffset ∧ e'.rowOffset = sv.rowOffset := by
  induction keys with
  | nil =>
    intro e q e' _ hrun
    have hstep : fiStep sv e q keyEscape = some (fiRestore sv e, q, true) := by
      unfold fiStep
      rw [if_neg (by decide), if_pos (Or.inl rfl)]
    rw [List.nil_append] at hrun
    simp only [fiRun, hstep, Option.some.injEq] at hrun
    rw [← hrun]
    exact ⟨rfl, rfl, rfl, rfl⟩
  | cons k ks ih =>
    intro e q e' hkeys hrun
    have hk := hkeys k (List.mem_cons_self k ks)
    rw [List.cons_append] at hrun
    cases hstep : fiStep sv e q k with
    | none => simp [fiRun, hstep] at hrun
    | some t =>
      obtain ⟨e1, q1, b⟩ := t
      have hb : b = false :=
        fiStep_not_finished sv e q k hk.1 hk.2.1 hk.2.2.1 hk.2.2.2 e1 q1 b hstep
      subst hb
      simp only [fiRun, hstep] at hrun
      exact ih e1 q1 e' (fun k' hk' => hkeys k' (List.mem_cons_of_mem k hk')) hrun

/-- Claim C3: search cancel/restore.  For the part_001 FindInteractive
(293-358) the claim holds: from any starting state, any sequence of
keys that does not itself finish the session, followed by escape,
leaves cx, cy, colOffset and rowOffset exactly at their starting
values.  For the first-snapshot Find (sdk.go 174-248) the claim fails
before escape can act: on the one-row document "ab", typing the query
"bc" and then pressing escape panics inside findSubstring (text[i+j]
out of range), so no restore happens — the second conjunct records the
panic of that session. -/
theorem search_cancel_restore :
    (∀ (e : Editor) (keys : List Key) (e' : Editor),
        (∀ k ∈ keys, k ≠ keyEscape ∧ k ≠ ctrlQ ∧ k ≠ keyEnter ∧ k ≠ keyCarriageReturn) →
        findInteractive e (keys ++ [keyEscape]) = some e' →
        e'.cx = e.cx ∧ e'.cy = e.cy ∧ e'.colOffset = e.colOffset ∧ e'.rowOffset = e.rowOffset) ∧
    findFS c3Editor [98, 99, keyEscape] = none := by
  refine ⟨?_, by decide⟩
  intro e keys e' hkeys hrun
  exact fiRun_escape_restores ⟨e.cx, e.cy, e.colOffset, e.rowOffset⟩ keys e [] e' hkeys hrun

/-- Witness for search_cancel_restore: on the document "ab", typing
the key b (which moves the cursor to the match at column 1) and then
escape brings the session back to exactly the initial state. -/
theorem search_cancel_restore_witness :
    (∀ k ∈ ([98] : List Key), k ≠ keyEscape ∧ k ≠ ctrlQ ∧ k ≠ keyEnter ∧ k ≠ keyCarriageReturn) ∧
    findInteractive c3Editor ([98] ++ [keyEscape]) = some c3Editor ∧
    (c3Editor.cx = c3Editor.cx ∧ c3Editor.cy = c3Editor.cy ∧
      c3Editor.colOffset = c3Editor.colOffset ∧ c3Editor.rowOffset = c3Editor.rowOffset) :=
  ⟨by decide, by decide,
    search_cancel_restore.1 c3Editor [98] c3Editor (by decide) (by decide)⟩

end JK
